import Mathlib

/-!
Verification of the analytics core of the react-fast-v6 repository.

The development shallowly embeds, in Lean 4:
  * the tabular engine (`src/domain/services/data_service.py`):
    `filter_production`, `aggregate_production`, `join_data`;
  * the decline-curve engine (`src/domain/services/dca_service.py`):
    the decline formulas, `calculate_rmse`,
    `fit_model_and_generate_forecast`;
  * the module-level names of `src/core/exceptions.py` and the names the
    decline-curve-analysis use case imports from it.

Modelling conventions:
  * Python floats are modelled as `ℚ` (the claims under verification are
    structural and exact, none depends on binary rounding);
  * `datetime.date` values are modelled as `Int` day numbers (only
    equality and order of dates matter to the code);
  * `date.fromisoformat` is an external (stdlib) routine; the embedding
    takes it as a parameter `parseDate : String → Option Int`
    (`Option.none` models a raised `ValueError`);
  * numerically opaque externals (`numpy.exp`, `numpy.power`,
    `numpy.sqrt`, `scipy.optimize.curve_fit`) are taken as oracle
    parameters bundled in `DCAOracles`; the claims under verification
    concern control flow and plumbing, which are independent of the
    oracle values;
  * Polars `DataFrame.unique` is called by the source without
    `maintain_order=True`, and Polars leaves the row order of its result
    unspecified; the embedding therefore takes the unique implementation
    as a parameter constrained only to return the distinct rows in some
    order (`admissibleUnique`).  `group_by` is called with
    `maintain_order=True`, whose first-seen group order is part of the
    Polars contract and is modelled directly.
-/

/-- Runtime value of a record field or of a filter-criterion value, as the
Python code sees it: `null` models Python `None`. -/
inductive PyVal where
  | null : PyVal
  | str (s : String) : PyVal
  | num (q : ℚ) : PyVal
  | date (d : Int) : PyVal
deriving DecidableEq

/-- The `Production` pydantic entity (`src/domain/entities/production.py`).
All fields are required (never `None`) for a validated model instance. -/
structure Production where
  reference_date : Int
  oil_prod : ℚ
  gas_prod : ℚ
  water_prod : ℚ
  well_code : String
deriving DecidableEq

/-- The `OilPrice` pydantic entity (`src/domain/entities/oil_price.py`). -/
structure OilPrice where
  reference_date : Int
  field_name : String
  field_code : String
  price : ℚ
deriving DecidableEq

/-- The `ExchangeRate` pydantic entity
(`src/domain/entities/exchange_rate.py`). -/
structure ExchangeRate where
  reference_date : Int
  rate : ℚ
deriving DecidableEq

/-- The field names of `Production.model_fields`, in declaration order
(this is also the column order of `model_dump`). -/
def productionFields : List String :=
  ["reference_date", "oil_prod", "gas_prod", "water_prod", "well_code"]

/-- Modelled `getattr(item, attr_name, None)` for a `Production` instance:
a valid field name yields the (never-`None`) field value, any other name
yields the `None` default. -/
def Production.getField (p : Production) (attr : String) : PyVal :=
  if attr = "reference_date" then .date p.reference_date
  else if attr = "oil_prod" then .num p.oil_prod
  else if attr = "gas_prod" then .num p.gas_prod
  else if attr = "water_prod" then .num p.water_prod
  else if attr = "well_code" then .str p.well_code
  else .null

/-- Python `==` between the non-`None` runtime values the filter handles:
equal types compare componentwise, distinct types compare unequal
(Python returns `False`, it does not raise). -/
def pyEq : PyVal → PyVal → Bool
  | .null, .null => true
  | .str a, .str b => a = b
  | .num a, .num b => a = b
  | .date a, .date b => a = b
  | _, _ => false

/-- Python ordering comparison between runtime values: defined within a
type, a `TypeError` (modelled `Option.none`) across types.  The source
catches the `TypeError` and treats the comparison as not matching. -/
def pyCompare : PyVal → PyVal → Option Ordering
  | .str a, .str b => some (compare a b)
  | .num a, .num b => some (compare a b)
  | .date a, .date b => some (compare a b)
  | _, _ => Option.none

/-- One criterion evaluation against one item value: the `match` block of
`DataService.filter_production` (data_service.py lines 45-95), after the
criterion value has been date-parsed if applicable.  `iv` is the item's
field value, `cv` the criterion value. -/
def evalMatch (op : String) (iv cv : PyVal) : Bool :=
  if cv = .null then
    if op = "eq" then iv = .null
    else if op = "ne" then iv ≠ .null
    else false
  else if iv = .null then
    if op = "ne" then true else false
  else
    if op = "eq" then pyEq iv cv
    else if op = "ne" then ! pyEq iv cv
    else if op = "gt" then
      match pyCompare iv cv with
      | some .gt => true
      | _ => false
    else if op = "ge" then
      match pyCompare iv cv with
      | some .gt => true
      | some .eq => true
      | _ => false
    else if op = "lt" then
      match pyCompare iv cv with
      | some .lt => true
      | _ => false
    else if op = "le" then
      match pyCompare iv cv with
      | some .lt => true
      | some .eq => true
      | _ => false
    else false

/-- Python `key.split('__')`: split on non-overlapping occurrences of the
double underscore, left to right (`''.split('__') == ['']`). -/
def splitDunder : List Char → List (List Char)
  | [] => [[]]
  | '_' :: '_' :: rest => [] :: splitDunder rest
  | c :: rest =>
    match splitDunder rest with
    | [] => [[c]]
    | h :: t => (c :: h) :: t

/-- The parts of a criteria key, `parts = key.split('__')`. -/
def criterionParts (k : String) : List String :=
  (splitDunder k.data).map String.mk

/-- The attribute part of a criteria key: `parts[0]`. -/
def criterionAttr (k : String) : String := (criterionParts k).headD ""

/-- The operator part of a criteria key:
`parts[1] if len(parts) > 1 else 'eq'`. -/
def criterionOp (k : String) : String :=
  let parts := criterionParts k
  if parts.length > 1 then parts.getD 1 "eq" else "eq"

/-- The per-item body of the criterion loop: date-string criterion values
against `reference_date` are ISO-parsed (a parse failure makes the item
fail the criterion, the source's `continue`), then `evalMatch` decides. -/
def itemStep (parseDate : String → Option Int) (attr op : String)
    (cv : PyVal) (item : Production) : Bool :=
  let iv := item.getField attr
  if attr = "reference_date" then
    match cv with
    | .str s =>
      match parseDate s with
      | Option.none => false
      | Option.some d => evalMatch op iv (.date d)
    | _ => evalMatch op iv cv
  else evalMatch op iv cv

/-- One pass of the outer criteria loop of `filter_production`: an unknown
attribute name skips the criterion, a known one filters the current
candidate list. -/
def applyCriterion (parseDate : String → Option Int) (kv : String × PyVal)
    (filtered : List Production) : List Production :=
  let attr := criterionAttr kv.1
  let op := criterionOp kv.1
  if productionFields.contains attr then
    filtered.filter (itemStep parseDate attr op kv.2)
  else filtered

/-- `DataService.filter_production` (data_service.py lines 13-100).
Criteria are an insertion-ordered association list, as a Python dict
presents them.  The source's early `break` when the candidate list becomes
empty is extensionally invisible (filtering an empty list is the empty
list) and is not represented. -/
def filter_production (parseDate : String → Option Int)
    (data : List Production) (criteria : List (String × PyVal)) :
    List Production :=
  if criteria.isEmpty then data
  else criteria.foldl (fun acc kv => applyCriterion parseDate kv acc) data

/-- Whether a record passes one criterion (vacuously true when the
criterion's attribute is unknown and the criterion is skipped). -/
def passes (parseDate : String → Option Int) (kv : String × PyVal)
    (r : Production) : Bool :=
  if productionFields.contains (criterionAttr kv.1) then
    itemStep parseDate (criterionAttr kv.1) (criterionOp kv.1) kv.2 r
  else true

theorem applyCriterion_eq_filter (parseDate : String → Option Int)
    (kv : String × PyVal) (l : List Production) :
    applyCriterion parseDate kv l = l.filter (passes parseDate kv) := by
  unfold applyCriterion passes
  by_cases h : criterionAttr kv.1 ∈ productionFields
  · simp [h]
  · simp [h]

theorem foldl_applyCriterion_sublist (parseDate : String → Option Int)
    (criteria : List (String × PyVal)) (data : List Production) :
    (criteria.foldl (fun acc kv => applyCriterion parseDate kv acc)
      data).Sublist data := by
  induction criteria generalizing data with
  | nil => exact List.Sublist.refl data
  | cons c cs ih =>
    refine List.Sublist.trans (ih (applyCriterion parseDate c data)) ?_
    rw [applyCriterion_eq_filter]
    exact List.filter_sublist data

theorem mem_foldl_applyCriterion (parseDate : String → Option Int)
    (criteria : List (String × PyVal)) (data : List Production)
    (r : Production) :
    r ∈ criteria.foldl (fun acc kv => applyCriterion parseDate kv acc)
        data ↔
      r ∈ data ∧ ∀ kv ∈ criteria, passes parseDate kv r = true := by
  induction criteria generalizing data with
  | nil => simp
  | cons c cs ih =>
    rw [List.foldl_cons, applyCriterion_eq_filter, ih, List.mem_filter]
    constructor
    · rintro ⟨⟨hr, hc⟩, hcs⟩
      refine ⟨hr, fun kv hkv => ?_⟩
      rcases List.mem_cons.mp hkv with h | h
      · subst h; exact hc
      · exact hcs kv h
    · rintro ⟨hr, hall⟩
      exact ⟨⟨hr, hall c (List.mem_cons_self c cs)⟩,
        fun kv hkv => hall kv (List.mem_cons_of_mem c hkv)⟩

theorem foldl_applyCriterion_of_all_pass (parseDate : String → Option Int)
    (criteria : List (String × PyVal)) (l : List Production)
    (h : ∀ r ∈ l, ∀ kv ∈ criteria, passes parseDate kv r = true) :
    criteria.foldl (fun acc kv => applyCriterion parseDate kv acc) l
      = l := by
  induction criteria generalizing l with
  | nil => rfl
  | cons c cs ih =>
    have hc : applyCriterion parseDate c l = l := by
      rw [applyCriterion_eq_filter]
      exact List.filter_eq_self.mpr fun r hr => h r hr c (List.mem_cons_self c cs)
    rw [List.foldl_cons, hc]
    exact ih l fun r hr kv hkv => h r hr kv (List.mem_cons_of_mem c hkv)

/-- C3: for criteria whose keys carry only the `eq` operator,
`filter_production` returns a stable subsequence of its input in which
every record satisfies every valid criterion, and re-filtering with the
same criteria is a no-op. -/
theorem filter_production_eq_props (parseDate : String → Option Int)
    (data : List Production) (criteria : List (String × PyVal))
    (_heq : ∀ kv ∈ criteria, criterionOp kv.1 = "eq") :
    (filter_production parseDate data criteria).Sublist data ∧
    (∀ r ∈ filter_production parseDate data criteria,
      ∀ kv ∈ criteria, passes parseDate kv r = true) ∧
    filter_production parseDate (filter_production parseDate data criteria)
        criteria
      = filter_production parseDate data criteria := by
  by_cases hc : criteria.isEmpty
  · rw [List.isEmpty_iff] at hc
    subst hc
    simp [filter_production]
  · simp only [filter_production, hc, if_false, Bool.false_eq_true]
    refine ⟨foldl_applyCriterion_sublist parseDate criteria data, ?_, ?_⟩
    · intro r hr kv hkv
      exact ((mem_foldl_applyCriterion parseDate criteria data r).mp hr).2
        kv hkv
    · exact foldl_applyCriterion_of_all_pass parseDate criteria _
        fun r hr kv hkv =>
          ((mem_foldl_applyCriterion parseDate criteria data r).mp hr).2
            kv hkv

/-- An ISO-date parser stub for concrete witnesses (never consulted by
them: their criteria carry no date strings). -/
def pdW : String → Option Int := fun _ => Option.none

/-- Concrete production record used by witnesses. -/
def prodW1 : Production := ⟨100, 10, 5, 2, "W1"⟩

/-- Second concrete production record used by witnesses. -/
def prodW2 : Production := ⟨101, 20, 6, 3, "W2"⟩

/-- Concrete eq-only criteria used by the C3 witness. -/
def critW : List (String × PyVal) := [("well_code", PyVal.str "W1")]

/-- Witness for C3 at concrete data and eq-only criteria. -/
theorem filter_production_eq_props_witness :
    (filter_production pdW [prodW1, prodW2] critW).Sublist
        [prodW1, prodW2] ∧
    (∀ r ∈ filter_production pdW [prodW1, prodW2] critW,
      ∀ kv ∈ critW, passes pdW kv r = true) ∧
    filter_production pdW (filter_production pdW [prodW1, prodW2] critW)
        critW
      = filter_production pdW [prodW1, prodW2] critW :=
  filter_production_eq_props pdW [prodW1, prodW2] critW (by decide)

/-- C8: the `None`-handling of the criterion matcher.  With a `None`
criterion value only `eq`/`ne` can match (`eq` iff the field is `None`,
`ne` iff it is not) and every range operator yields `false`; with a
`None` field value against a non-`None` criterion value only `ne`
matches. -/
theorem evalMatch_none_semantics (op : String) (iv cv : PyVal) :
    (evalMatch op iv .null = true ↔
      ((op = "eq" ∧ iv = .null) ∨ (op = "ne" ∧ iv ≠ .null))) ∧
    (op = "gt" ∨ op = "ge" ∨ op = "lt" ∨ op = "le" →
      evalMatch op iv .null = false) ∧
    (iv = .null → cv ≠ .null → (evalMatch op iv cv = true ↔ op = "ne")) := by
  refine ⟨?_, ?_, ?_⟩
  · unfold evalMatch
    by_cases h1 : op = "eq"
    · subst h1; simp
    · by_cases h2 : op = "ne"
      · subst h2; simp
      · simp [h1, h2]
  · rintro hop
    unfold evalMatch
    have h1 : ¬ op = "eq" := by rintro rfl; rcases hop with h | h | h | h <;> simp_all
    have h2 : ¬ op = "ne" := by rintro rfl; rcases hop with h | h | h | h <;> simp_all
    simp [h1, h2]
  · rintro rfl hcv
    unfold evalMatch
    by_cases h2 : op = "ne" <;> simp [hcv, h2]

/-- Witness for C8 at concrete operators and values. -/
theorem evalMatch_none_semantics_witness :
    evalMatch "lt" (PyVal.num 3) PyVal.null = false ∧
    (evalMatch "ne" PyVal.null (PyVal.num 1) = true ↔ ("ne" : String) = "ne") :=
  ⟨(evalMatch_none_semantics "lt" (PyVal.num 3) PyVal.null).2.1
      (Or.inr (Or.inr (Or.inl rfl))),
    (evalMatch_none_semantics "ne" PyVal.null (PyVal.num 1)).2.2 rfl
      (by decide)⟩

/-- Helper for `firstSeen`: keeps the first occurrence of each value,
skipping values already seen. -/
def firstSeenAux {α : Type} [DecidableEq α] (seen : List α) :
    List α → List α
  | [] => []
  | a :: l =>
    if a ∈ seen then firstSeenAux seen l
    else a :: firstSeenAux (a :: seen) l

/-- The distinct values of a list in first-seen order.  This is the group
enumeration Polars guarantees for `group_by(..., maintain_order=True)`. -/
def firstSeen {α : Type} [DecidableEq α] (l : List α) : List α :=
  firstSeenAux [] l

theorem mem_of_mem_firstSeenAux {α : Type} [DecidableEq α]
    (l : List α) : ∀ (seen : List α) (a : α),
    a ∈ firstSeenAux seen l → a ∈ l := by
  induction l with
  | nil => intro seen a h; simp [firstSeenAux] at h
  | cons b t ih =>
    intro seen a h
    by_cases hb : b ∈ seen
    · simp only [firstSeenAux, if_pos hb] at h
      exact List.mem_cons_of_mem b (ih seen a h)
    · simp only [firstSeenAux, if_neg hb, List.mem_cons] at h
      rcases h with h | h
      · exact h ▸ List.mem_cons_self b t
      · exact List.mem_cons_of_mem b (ih (b :: seen) a h)

theorem mem_of_mem_firstSeen {α : Type} [DecidableEq α]
    {l : List α} {a : α} (h : a ∈ firstSeen l) : a ∈ l :=
  mem_of_mem_firstSeenAux l [] a h

/-- Mapping a function that is the identity on every member is the
identity. -/
theorem map_eq_self_of_mem {α : Type} {f : α → α} :
    ∀ (l : List α), (∀ a ∈ l, f a = a) → l.map f = l := by
  intro l h
  induction l with
  | nil => rfl
  | cons a t ih =>
    rw [List.map_cons, h a (List.mem_cons_self a t),
      ih fun x hx => h x (List.mem_cons_of_mem a hx)]

/-- An output row of the aggregation or join engine: a flat
column-name-to-value mapping, in column order. -/
abbrev Row := List (String × PyVal)

/-- The Polars `Expr` aggregation methods the embedding interprets.  The
source probes `hasattr(pl.col(c), func_name)` dynamically; the model
fixes the representative set named by the spec whose results are exactly
representable over `ℚ` (`std`/`var`/`median` would need a square root or
selection semantics no claim depends on — no claim under verification
depends on aggregate values at all, only on row presence and order). -/
def supportedAggFuncs : List String :=
  ["sum", "mean", "min", "max", "count", "first", "last"]

/-- The numeric payloads of a column's values. -/
def toNums (vs : List PyVal) : List ℚ :=
  vs.filterMap (fun v =>
    match v with
    | .num q => some q
    | _ => Option.none)

/-- Evaluation of one aggregation expression over a column of a group. -/
def evalAgg (fn : String) (vs : List PyVal) : PyVal :=
  if fn = "sum" then .num (toNums vs).sum
  else if fn = "mean" then .num ((toNums vs).sum / ((toNums vs).length : ℚ))
  else if fn = "min" then ((toNums vs).min?).elim PyVal.null PyVal.num
  else if fn = "max" then ((toNums vs).max?).elim PyVal.null PyVal.num
  else if fn = "count" then .num vs.length
  else if fn = "first" then vs.headD .null
  else if fn = "last" then vs.getLastD .null
  else .null

/-- The aggregation specs that survive validation: the source column must
exist and the function name must be a known aggregation method
(data_service.py lines 154-173). -/
def survivingAggs (ags : List (String × String)) : List (String × String) :=
  ags.filter (fun cf =>
    productionFields.contains cf.1 && supportedAggFuncs.contains cf.2)

/-- The group-by fields that exist among the data's columns
(data_service.py line 139). -/
def validGroupBy (gb : List String) : List String :=
  gb.filter (fun f => productionFields.contains f)

/-- The group key of a record under the given group-by fields. -/
def keyOf (fields : List String) (p : Production) : List PyVal :=
  fields.map p.getField

/-- Admissible behaviours of Polars `DataFrame.unique()` (called without
`maintain_order=True`): it returns each distinct row exactly once, in an
order Polars leaves unspecified. -/
def admissibleUnique (uniq : List (List PyVal) → List (List PyVal)) : Prop :=
  ∀ l, (uniq l).Perm (firstSeen l)

/-- `DataService.aggregate_production` (data_service.py lines 104-191).
`uniq` stands for Polars `DataFrame.unique()` (see `admissibleUnique`);
`group_by(valid_gb, maintain_order=True).agg(...)` is modelled as one row
per first-seen group key, key columns first, then one `<col>_<func>`
column per surviving aggregation spec; `df.select(agg_exprs)` (no valid
group-by fields requested at all) is a single row of the aggregations
over the whole record set. -/
def aggregate_production (uniq : List (List PyVal) → List (List PyVal))
    (data : List Production) (group_by_fields : List String)
    (aggregation_functions : List (String × String)) : List Row :=
  if data.isEmpty then []
  else
    let valid_gb := validGroupBy group_by_fields
    if valid_gb.isEmpty && !group_by_fields.isEmpty then []
    else
      let aggs := survivingAggs aggregation_functions
      if aggs.isEmpty then
        if !valid_gb.isEmpty then
          (uniq (data.map (keyOf valid_gb))).map (fun vs => valid_gb.zip vs)
        else []
      else
        if !valid_gb.isEmpty then
          (firstSeen (data.map (keyOf valid_gb))).map (fun key =>
            let members := data.filter (fun p => keyOf valid_gb p == key)
            valid_gb.zip key ++
              aggs.map (fun cf =>
                (cf.1 ++ "_" ++ cf.2,
                  evalAgg cf.2 (members.map (fun p => p.getField cf.1)))))
        else
          [aggs.map (fun cf =>
            (cf.1 ++ "_" ++ cf.2,
              evalAgg cf.2 (data.map (fun p => p.getField cf.1))))]

/-- C7: if at least one group-by field was supplied and none of them is a
valid column, `aggregate_production` fails closed with an empty result,
whatever the aggregation functions. -/
theorem aggregate_production_fail_closed
    (uniq : List (List PyVal) → List (List PyVal))
    (data : List Production) (gb : List String)
    (ag : List (String × String))
    (h1 : gb ≠ []) (h2 : validGroupBy gb = []) :
    aggregate_production uniq data gb ag = [] := by
  by_cases hd : data.isEmpty
  · simp [aggregate_production, hd]
  · simp [aggregate_production, hd, h2, h1]

/-- Witness for C7 at a concrete unknown sole group-by field. -/
theorem aggregate_production_fail_closed_witness :
    aggregate_production firstSeen [prodW1] ["nope"] [("oil_prod", "sum")]
      = [] :=
  aggregate_production_fail_closed firstSeen [prodW1] ["nope"]
    [("oil_prod", "sum")] (by decide) (by decide)

/-- C2 (amended): group rows appear in first-seen order of the group key
values on the aggregation path, where the source requests
`maintain_order=True`; on the fallback path (no aggregation expression
survives validation) the result is the distinct combinations of the valid
group-by columns, as a set — the source calls `unique()` without
`maintain_order=True`, so only a permutation of the first-seen
enumeration is guaranteed; with no valid group-by fields and no surviving
aggregations the result is empty. -/
theorem aggregate_production_group_order
    (uniq : List (List PyVal) → List (List PyVal))
    (hu : admissibleUnique uniq)
    (data : List Production) (gb : List String)
    (ag : List (String × String)) (hdata : data ≠ []) :
    (validGroupBy gb ≠ [] → survivingAggs ag ≠ [] →
      (aggregate_production uniq data gb ag).map
          (fun row => (row.take (validGroupBy gb).length).map Prod.snd)
        = firstSeen (data.map (keyOf (validGroupBy gb)))) ∧
    (validGroupBy gb ≠ [] → survivingAggs ag = [] →
      (aggregate_production uniq data gb ag).Perm
        ((firstSeen (data.map (keyOf (validGroupBy gb)))).map
          (fun vs => (validGroupBy gb).zip vs))) ∧
    (gb = [] → survivingAggs ag = [] →
      aggregate_production uniq data gb ag = []) := by
  have hd : data.isEmpty = false := by
    cases data with
    | nil => exact absurd rfl hdata
    | cons a t => rfl
  refine ⟨?_, ?_, ?_⟩
  · intro hv ha
    have hv2 : (validGroupBy gb).isEmpty = false :=
      Bool.eq_false_iff.mpr fun h => hv (List.isEmpty_iff.mp h)
    have ha2 : (survivingAggs ag).isEmpty = false :=
      Bool.eq_false_iff.mpr fun h => ha (List.isEmpty_iff.mp h)
    simp only [aggregate_production, hd, hv2, ha2, Bool.false_and,
      Bool.not_false, Bool.false_eq_true, if_false, if_true,
      Bool.true_eq_false]
    rw [List.map_map]
    apply map_eq_self_of_mem
    intro key hkey
    have hklen : key.length = (validGroupBy gb).length := by
      rcases List.mem_map.mp (mem_of_mem_firstSeen hkey) with ⟨p, _, rfl⟩
      simp [keyOf]
    show ((((validGroupBy gb).zip key) ++ _).take
        (validGroupBy gb).length).map Prod.snd = key
    rw [List.take_left' (by simp [List.length_zip, hklen])]
    exact List.map_snd_zip _ _ (le_of_eq hklen)
  · intro hv ha
    have hv2 : (validGroupBy gb).isEmpty = false :=
      Bool.eq_false_iff.mpr fun h => hv (List.isEmpty_iff.mp h)
    simp only [aggregate_production, hd, hv2, ha, Bool.false_and,
      Bool.not_false, Bool.false_eq_true, if_false, if_true,
      List.isEmpty_nil, Bool.true_eq_false]
    exact (hu (data.map (keyOf (validGroupBy gb)))).map
      (fun vs => (validGroupBy gb).zip vs)
  · intro hgb ha
    subst hgb
    simp [aggregate_production, hd, ha, validGroupBy]

/-- Witness for C2 at concrete data, a valid group-by field and a
surviving aggregation. -/
theorem aggregate_production_group_order_witness :
    (aggregate_production firstSeen [prodW1, prodW2] ["well_code"]
        [("oil_prod", "sum")]).map
        (fun row =>
          (row.take (validGroupBy ["well_code"]).length).map Prod.snd)
      = firstSeen ([prodW1, prodW2].map (keyOf (validGroupBy ["well_code"]))) :=
  (aggregate_production_group_order firstSeen (fun l => List.Perm.refl _)
      [prodW1, prodW2] ["well_code"] [("oil_prod", "sum")]
      (by decide)).1 (by decide) (by decide)

/-- A Polars-admissible `unique()` behaviour that returns the distinct
rows in reversed first-seen order. -/
def revUnique (l : List (List PyVal)) : List (List PyVal) :=
  (firstSeen l).reverse

/-- Counterexample to C2 as stated: on the fallback path (the sole
aggregation function name is unknown, so no aggregation expression
survives), `unique()` is called without `maintain_order=True` and an
admissible implementation may return the distinct group-key combinations
in an order other than first-seen — here reversed. -/
theorem aggregate_production_fallback_order_cex :
    admissibleUnique revUnique ∧
    aggregate_production revUnique [prodW1, prodW2] ["well_code"]
        [("oil_prod", "bogus")]
      = [[("well_code", PyVal.str "W2")], [("well_code", PyVal.str "W1")]] ∧
    firstSeen ([prodW1, prodW2].map (keyOf (validGroupBy ["well_code"])))
      = [[PyVal.str "W1"], [PyVal.str "W2"]] :=
  ⟨fun l => List.reverse_perm (firstSeen l), by decide, by decide⟩

/-- A row of the joined result: the production row's columns, then the
price columns when a price row matched on `reference_date`, then the
exchange-rate columns when a rate row matched.  The typed embedding keeps
the three parts intact; "restricted to production's own columns" is the
`prod` component.  (The right-hand tables of the typed model always have
their `reference_date` column, so the source's missing-key-column skip
branch is vacuous here.) -/
structure JoinedRow where
  prod : Production
  price : Option OilPrice
  rate : Option ExchangeRate
deriving DecidableEq

/-- The first join step of `DataService.join_data`: left-outer-join the
production rows with the price rows on `reference_date`.  An empty price
table skips the join (the production rows keep no price part); otherwise
each production row yields one output row per matching price row, or a
single price-less row when nothing matches.  The claims under
verification are order-insensitive, so the model's nested-loop row order
stands in for Polars' unspecified join row order. -/
def joinPrices (production : List Production) (price_data : List OilPrice) :
    List (Production × Option OilPrice) :=
  if price_data.isEmpty then production.map (fun p => (p, Option.none))
  else
    production.flatMap (fun p =>
      let ms := price_data.filter
        (fun pr => pr.reference_date == p.reference_date)
      if ms.isEmpty then [(p, Option.none)]
      else ms.map (fun m => (p, Option.some m)))

/-- The second join step of `DataService.join_data`: left-outer-join the
intermediate rows with the exchange-rate rows on the production row's
`reference_date`, with the same empty-table skip. -/
def joinRates (step1 : List (Production × Option OilPrice))
    (exchange_data : List ExchangeRate) : List JoinedRow :=
  if exchange_data.isEmpty then
    step1.map (fun pe => ⟨pe.1, pe.2, Option.none⟩)
  else
    step1.flatMap (fun pe =>
      let ms := exchange_data.filter
        (fun r => r.reference_date == pe.1.reference_date)
      if ms.isEmpty then [⟨pe.1, pe.2, Option.none⟩]
      else ms.map (fun r => ⟨pe.1, pe.2, Option.some r⟩))

/-- `DataService.join_data` (data_service.py lines 200-257): empty
production short-circuits to the empty result, otherwise the two join
steps run in sequence. -/
def join_data (production_data : List Production)
    (price_data : List OilPrice) (exchange_data : List ExchangeRate) :
    List JoinedRow :=
  if production_data.isEmpty then []
  else joinRates (joinPrices production_data price_data) exchange_data

theorem sum_map_const {α : Type} (l : List α) (c : ℕ) :
    (l.map (fun _ => c)).sum = l.length * c := by
  induction l with
  | nil => simp
  | cons a t ih => simp [ih, Nat.succ_mul, Nat.add_comm]

theorem sum_flatMap_nat {α : Type} (l : List α) (f : α → List ℕ) :
    (l.flatMap f).sum = (l.map fun a => (f a).sum).sum := by
  induction l with
  | nil => rfl
  | cons a t ih => simp [List.flatMap_cons, List.sum_append, ih]

theorem mem_matchRows {α β : Type} {ms : List α} {g : α → β} {x y : β}
    (h : y ∈ (if ms.isEmpty then [x] else ms.map g)) :
    y = x ∨ ∃ m ∈ ms, y = g m := by
  by_cases hms : ms.isEmpty
  · left; simpa [hms] using h
  · right
    rcases List.mem_map.mp (by simpa [hms] using h) with ⟨m, hm, hy⟩
    exact ⟨m, hm, hy.symm⟩

theorem length_matchRows {α β : Type} (ms : List α) (g : α → β) (x : β) :
    (if ms.isEmpty then [x] else ms.map g).length = max 1 ms.length := by
  cases ms with
  | nil => simp
  | cons a t =>
    simp [List.isEmpty, Nat.max_eq_right (Nat.succ_le_succ (Nat.zero_le _))]

theorem fst_mem_joinPrices {production : List Production}
    {prices : List OilPrice} {pe : Production × Option OilPrice}
    (h : pe ∈ joinPrices production prices) : pe.1 ∈ production := by
  unfold joinPrices at h
  by_cases hp : prices.isEmpty = true
  · rw [if_pos hp] at h
    rcases List.mem_map.mp h with ⟨p, hm, hpe⟩
    rw [← hpe]
    exact hm
  · rw [if_neg hp] at h
    rcases List.mem_flatMap.mp h with ⟨p, hm, hpe⟩
    rcases mem_matchRows hpe with h1 | ⟨m, _, h1⟩ <;> rw [h1] <;> exact hm

theorem prod_mem_joinRates {step1 : List (Production × Option OilPrice)}
    {rates : List ExchangeRate} {row : JoinedRow}
    (h : row ∈ joinRates step1 rates) : ∃ pe ∈ step1, row.prod = pe.1 := by
  unfold joinRates at h
  by_cases hx : rates.isEmpty = true
  · rw [if_pos hx] at h
    rcases List.mem_map.mp h with ⟨pe, hm, hrow⟩
    exact ⟨pe, hm, by rw [← hrow]⟩
  · rw [if_neg hx] at h
    rcases List.mem_flatMap.mp h with ⟨pe, hm, hrow⟩
    rcases mem_matchRows hrow with h1 | ⟨m, _, h1⟩ <;>
      exact ⟨pe, hm, by rw [h1]⟩

theorem length_joinRates (step1 : List (Production × Option OilPrice))
    (rates : List ExchangeRate) :
    (joinRates step1 rates).length
      = (step1.map (fun pe =>
          max 1 (rates.countP
            (fun r => r.reference_date == pe.1.reference_date)))).sum := by
  unfold joinRates
  by_cases hx : rates.isEmpty = true
  · rw [List.isEmpty_iff] at hx
    subst hx
    simp [sum_map_const]
  · rw [if_neg hx, List.length_flatMap]
    have hfun : ∀ pe : Production × Option OilPrice,
        (if (rates.filter
            (fun r => r.reference_date == pe.1.reference_date)).isEmpty
          then [(⟨pe.1, pe.2, Option.none⟩ : JoinedRow)]
          else (rates.filter
            (fun r => r.reference_date == pe.1.reference_date)).map
              (fun r => ⟨pe.1, pe.2, Option.some r⟩)).length
        = max 1 (rates.countP
            (fun r => r.reference_date == pe.1.reference_date)) := by
      intro pe
      rw [length_matchRows, List.countP_eq_length_filter]
    simp only [Function.comp_def, hfun]

theorem sum_over_joinPrices (production : List Production)
    (prices : List OilPrice) (g : Production → ℕ) :
    ((joinPrices production prices).map (fun pe => g pe.1)).sum
      = (production.map (fun p =>
          max 1 (prices.countP
            (fun pr => pr.reference_date == p.reference_date)) * g p)).sum := by
  unfold joinPrices
  by_cases hp : prices.isEmpty = true
  · rw [List.isEmpty_iff] at hp
    subst hp
    simp [List.map_map, Function.comp_def]
  · rw [if_neg hp, List.map_flatMap, sum_flatMap_nat]
    have hfun : ∀ p : Production,
        (((if (prices.filter
              (fun pr => pr.reference_date == p.reference_date)).isEmpty
            then [(p, (Option.none : Option OilPrice))]
            else (prices.filter
              (fun pr => pr.reference_date == p.reference_date)).map
                (fun m => (p, Option.some m))).map
          (fun pe => g pe.1)).sum)
        = max 1 (prices.countP
            (fun pr => pr.reference_date == p.reference_date)) * g p := by
      intro p
      by_cases hm : (prices.filter
          (fun pr => pr.reference_date == p.reference_date)).isEmpty = true
      · rw [if_pos hm]
        rw [List.isEmpty_iff] at hm
        simp [List.countP_eq_length_filter, hm]
      · rw [if_neg hm]
        have hne : prices.filter
            (fun pr => pr.reference_date == p.reference_date) ≠ [] :=
          fun hc => hm (by rw [hc]; rfl)
        have hpos : 1 ≤ (prices.filter
            (fun pr => pr.reference_date == p.reference_date)).length := by
          cases hc : prices.filter
              (fun pr => pr.reference_date == p.reference_date) with
          | nil => exact absurd hc hne
          | cons a t => simp
        rw [List.map_map]
        have : ((fun pe : Production × Option OilPrice => g pe.1) ∘
            fun m : OilPrice => (p, Option.some m)) = fun _ => g p := rfl
        rw [this, sum_map_const, List.countP_eq_length_filter,
          Nat.max_eq_right hpos]
    simp only [hfun]

/-- C4: every joined row restricted to production's own columns is a row
of the production input; empty production gives the empty result for any
right-hand tables; and the number of output rows is one per match — each
production row contributes the product of its (at-least-one) match counts
against each nonempty right-hand table, so duplicate right-hand dates
multiply rows rather than being deduplicated. -/
theorem join_data_props (production : List Production)
    (prices : List OilPrice) (rates : List ExchangeRate) :
    join_data [] prices rates = [] ∧
    (∀ row ∈ join_data production prices rates, row.prod ∈ production) ∧
    (join_data production prices rates).length =
      (production.map (fun p =>
        max 1 (prices.countP
          (fun pr => pr.reference_date == p.reference_date)) *
        max 1 (rates.countP
          (fun r => r.reference_date == p.reference_date)))).sum := by
  refine ⟨rfl, ?_, ?_⟩
  · intro row hrow
    unfold join_data at hrow
    by_cases hp : production.isEmpty = true
    · rw [if_pos hp] at hrow
      simp at hrow
    · rw [if_neg hp] at hrow
      rcases prod_mem_joinRates hrow with ⟨pe, hpe, hprod⟩
      rw [hprod]
      exact fst_mem_joinPrices hpe
  · unfold join_data
    by_cases hp : production.isEmpty = true
    · rw [List.isEmpty_iff] at hp
      subst hp
      rfl
    · rw [if_neg hp, length_joinRates]
      exact sum_over_joinPrices production prices
        (fun p => max 1 (rates.countP
          (fun r => r.reference_date == p.reference_date)))

/-- Concrete price row used by the C4 witness, matching `prodW1`'s
reference date. -/
def priceW : OilPrice := ⟨100, "FieldA", "F1", 70⟩

/-- Witness for C4 at a concrete one-row join. -/
theorem join_data_props_witness :
    (JoinedRow.mk prodW1 (Option.some priceW) Option.none).prod
        ∈ [prodW1] ∧
    (join_data [prodW1] [priceW] []).length =
      ([prodW1].map (fun p =>
        max 1 ([priceW].countP
          (fun pr => pr.reference_date == p.reference_date)) *
        max 1 (([] : List ExchangeRate).countP
          (fun r => r.reference_date == p.reference_date)))).sum :=
  ⟨(join_data_props [prodW1] [priceW] []).2.1
      ⟨prodW1, Option.some priceW, Option.none⟩ (by decide),
    (join_data_props [prodW1] [priceW] []).2.2⟩

/-- Errors of the decline-curve engine: `valueErr` models a raised
`ValueError`, `runtimeErr` models the raised `RuntimeError` that wraps
optimizer non-convergence (the spec's `FittingError`). -/
inductive EngineError where
  | valueErr (msg : String) : EngineError
  | runtimeErr (msg : String) : EngineError
deriving DecidableEq

/-- Numeric and optimizer externals of the decline-curve engine, taken as
oracles: `exp`/`powf`/`sqrtf` stand for `numpy.exp`, `numpy.power` and
`numpy.sqrt`; `curveFitExp`/`curveFitHyp` stand for
`scipy.optimize.curve_fit` on the respective model (an `Except.error`
models a raised `RuntimeError`; the source's initial guesses and bounds
only steer the optimizer and are absorbed into the oracle). -/
structure DCAOracles where
  exp : ℚ → ℚ
  powf : ℚ → ℚ → ℚ
  sqrtf : ℚ → ℚ
  curveFitExp : List ℚ → List ℚ → Except String (ℚ × ℚ)
  curveFitHyp : List ℚ → List ℚ → Except String (ℚ × ℚ × ℚ)

/-- `DCAService._exponential_decline` (dca_service.py lines 12-19),
pointwise: `qi * exp(-Di * t)`. -/
def exponential_decline (O : DCAOracles) (t qi Di : ℚ) : ℚ :=
  qi * O.exp (-Di * t)

/-- `DCAService._hyperbolic_decline` (dca_service.py lines 21-35),
pointwise: the `b == 0` guard short-circuits to the exponential formula
(the power with exponent `1/b` is never formed), otherwise
`qi / (1 + b*Di*t) ** (1/b)`. -/
def hyperbolic_decline (O : DCAOracles) (t qi Di b : ℚ) : ℚ :=
  if b = 0 then exponential_decline O t qi Di
  else qi / O.powf (1 + b * Di * t) (1 / b)

/-- The `ValueError` message of `calculate_rmse` for mismatched lengths. -/
def rmseLenMsg : String :=
  "Actual and fitted rates arrays must have the same length."

/-- `DCAService.calculate_rmse` (dca_service.py lines 99-108):
mismatched lengths raise `ValueError`; the empty pair short-circuits to
`0.0`; otherwise `sqrt(mean((actual - fitted)**2))`. -/
def calculate_rmse (sqrtf : ℚ → ℚ) (actual_rates fitted_rates : List ℚ) :
    Except EngineError ℚ :=
  if actual_rates.length ≠ fitted_rates.length then
    .error (.valueErr rmseLenMsg)
  else if actual_rates.length = 0 then .ok 0
  else
    .ok (sqrtf
      ((((actual_rates.zip fitted_rates).map
          (fun p => (p.1 - p.2) ^ 2)).sum) / (actual_rates.length : ℚ)))

/-- `DCAService.fit_exponential` (dca_service.py lines 37-60): fewer than
two points raise `ValueError` before the optimizer runs; optimizer
non-convergence is re-raised as `RuntimeError`. -/
def fit_exponential (O : DCAOracles) (time_data rate_data : List ℚ) :
    Except EngineError (ℚ × ℚ) :=
  if time_data.length < 2 ∨ rate_data.length < 2 then
    .error (.valueErr "At least two data points are required for fitting.")
  else
    match O.curveFitExp time_data rate_data with
    | .ok p => .ok p
    | .error e => .error (.runtimeErr
        ("Exponential curve_fit failed to find optimal parameters: " ++ e))

/-- `DCAService.fit_hyperbolic` (dca_service.py lines 62-86): fewer than
three points raise `ValueError` before the optimizer runs. -/
def fit_hyperbolic (O : DCAOracles) (time_data rate_data : List ℚ) :
    Except EngineError (ℚ × ℚ × ℚ) :=
  if time_data.length < 3 then
    .error (.valueErr
      "At least three data points are recommended for hyperbolic fitting.")
  else
    match O.curveFitHyp time_data rate_data with
    | .ok p => .ok p
    | .error e => .error (.runtimeErr
        ("Hyperbolic curve_fit failed to find optimal parameters: " ++ e))

/-- `numpy.arange(start, stop)` with unit step: `start, start+1, ...`
with `ceil(stop - start)` entries (empty when `stop ≤ start`). -/
def arange (start stop : ℚ) : List ℚ :=
  (List.range (Rat.ceil (stop - start)).toNat).map
    (fun (i : ℕ) => start + (i : ℚ))

theorem arange_add_int (s : ℚ) (d : Int) :
    arange s (s + (d : ℚ))
      = (List.range d.toNat).map (fun (i : ℕ) => s + (i : ℚ)) := by
  unfold arange
  have h1 : s + (d : ℚ) - s = (d : ℚ) := by ring
  have h2 : Rat.ceil ((d : ℚ)) = d := by
    unfold Rat.ceil
    simp
  rw [h1, h2]

/-- Python `str.lower()` (ASCII suffices for the model-type strings the
source compares against). -/
def pyLower (s : String) : String := String.mk (s.data.map Char.toLower)

/-- The tuple returned by `DCAService.fit_model_and_generate_forecast`. -/
structure FitForecastResult where
  rate_fitted : List ℚ
  time_forecast : List ℚ
  rate_forecast : List ℚ
  params : List (String × ℚ)
  rmse : ℚ
deriving DecidableEq

/-- `DCAService.fit_model_and_generate_forecast` (dca_service.py lines
121-174): dispatch on the lower-cased model type; fit; fitted rates over
the actual time points; RMSE of actual against fitted; forecast time
points `arange(last+1, last+1+forecast_duration)` where `last` is the
final actual time point (`0` for an empty series); forecast rates from
the same fitted model at those absolute times.  `generate_rates`'s
dispatch on the decline-function object is resolved per branch. -/
def fit_model_and_generate_forecast (O : DCAOracles)
    (time_actual rate_actual : List ℚ) (model_type : String)
    (forecast_duration : Int) : Except EngineError FitForecastResult :=
  if pyLower model_type = "exponential" then
    match fit_exponential O time_actual rate_actual with
    | .error e => .error e
    | .ok (qi, Di) =>
      let rate_fitted :=
        time_actual.map (fun t => exponential_decline O t qi Di)
      match calculate_rmse O.sqrtf rate_actual rate_fitted with
      | .error e => .error e
      | .ok rmse =>
        let last := time_actual.getLast?.getD 0
        let tf := arange (last + 1) (last + 1 + (forecast_duration : ℚ))
        .ok ⟨rate_fitted, tf,
          tf.map (fun t => exponential_decline O t qi Di),
          [("qi", qi), ("Di", Di)], rmse⟩
  else if pyLower model_type = "hyperbolic" then
    match fit_hyperbolic O time_actual rate_actual with
    | .error e => .error e
    | .ok (qi, Di, b) =>
      let rate_fitted :=
        time_actual.map (fun t => hyperbolic_decline O t qi Di b)
      match calculate_rmse O.sqrtf rate_actual rate_fitted with
      | .error e => .error e
      | .ok rmse =>
        let last := time_actual.getLast?.getD 0
        let tf := arange (last + 1) (last + 1 + (forecast_duration : ℚ))
        .ok ⟨rate_fitted, tf,
          tf.map (fun t => hyperbolic_decline O t qi Di b),
          [("qi", qi), ("Di", Di), ("b", b)], rmse⟩
  else .error (.valueErr ("Unsupported model type: " ++ model_type))

/-- C6: the hyperbolic decline evaluated with `b = 0` equals the
exponential decline `qi * exp(-Di * t)` pointwise over any time array —
the guard branch returns the exponential formula outright, so no
`1/b` exponent is ever formed. -/
theorem hyperbolic_b_zero_eq_exponential (O : DCAOracles) (ts : List ℚ)
    (qi Di : ℚ) :
    ts.map (fun t => hyperbolic_decline O t qi Di 0)
      = ts.map (fun t => exponential_decline O t qi Di) := by
  simp [hyperbolic_decline]

theorem sum_sq_diff_self (l : List ℚ) :
    ((l.zip l).map (fun p => (p.1 - p.2) ^ 2)).sum = 0 := by
  induction l with
  | nil => rfl
  | cons x t ih => simpa using ih

/-- C9: `calculate_rmse` raises `ValueError` for every pair of series of
different lengths; equal same-length series give exactly `0.0`
(`sqrt(0) = 0` is the only fact used of the square root); otherwise it
returns `sqrt(mean((actual - fitted)**2))`. -/
theorem calculate_rmse_props (sqrtf : ℚ → ℚ) (a f : List ℚ) :
    (a.length ≠ f.length →
      calculate_rmse sqrtf a f = .error (.valueErr rmseLenMsg)) ∧
    (sqrtf 0 = 0 → a = f → calculate_rmse sqrtf a f = .ok 0) ∧
    (a.length = f.length → a ≠ [] →
      calculate_rmse sqrtf a f
        = .ok (sqrtf
            ((((a.zip f).map (fun p => (p.1 - p.2) ^ 2)).sum)
              / (a.length : ℚ)))) := by
  refine ⟨?_, ?_, ?_⟩
  · intro h
    unfold calculate_rmse
    rw [if_pos h]
  · intro h0 heq
    subst heq
    unfold calculate_rmse
    rw [if_neg (by simp)]
    by_cases hl : a.length = 0
    · rw [if_pos hl]
    · rw [if_neg hl, sum_sq_diff_self]
      simp [h0]
  · intro hlen hne
    unfold calculate_rmse
    rw [if_neg (by simp [hlen]),
      if_neg (fun hc => hne (List.length_eq_zero.mp hc))]

/-- Witness for C9: the spec's example `[1,2,3]` against itself, and a
mismatched-length pair. -/
theorem calculate_rmse_props_witness :
    calculate_rmse id [1, 2, 3] [1, 2, 3] = .ok 0 ∧
    calculate_rmse id [1, 2] [1] = .error (.valueErr rmseLenMsg) :=
  ⟨(calculate_rmse_props id [1, 2, 3] [1, 2, 3]).2.1 rfl rfl,
    (calculate_rmse_props id [1, 2] [1]).1 (by decide)⟩

/-- C10: two empty series short-circuit to `0.0` rather than failing,
although the mean of zero points is undefined — the square root is never
consulted. -/
theorem calculate_rmse_empty_ok (sqrtf : ℚ → ℚ) :
    calculate_rmse sqrtf [] [] = .ok 0 := rfl

/-- C5: whenever `fit_model_and_generate_forecast` succeeds, the forecast
time series is exactly the integers `last_observed_t + 1` through
`last_observed_t + forecast_duration` (that many points), and both the
fitted series and the forecast series are the same fitted model — the
branch's decline function with the returned parameters — evaluated at the
absolute elapsed times (the actual time points, respectively the forecast
time points measured from the same origin). -/
theorem fit_forecast_structure (O : DCAOracles)
    (time_actual rate_actual : List ℚ) (model_type : String)
    (forecast_duration : Int) (_hd : 0 < forecast_duration)
    (res : FitForecastResult)
    (h : fit_model_and_generate_forecast O time_actual rate_actual
        model_type forecast_duration = .ok res) :
    res.time_forecast
        = (List.range forecast_duration.toNat).map
            (fun (i : ℕ) => time_actual.getLast?.getD 0 + 1 + (i : ℚ)) ∧
    res.time_forecast.length = forecast_duration.toNat ∧
    ∃ g : ℚ → ℚ,
      ((pyLower model_type = "exponential" ∧
          ∃ qi Di, res.params = [("qi", qi), ("Di", Di)] ∧
            g = fun t => exponential_decline O t qi Di) ∨
        (pyLower model_type = "hyperbolic" ∧
          ∃ qi Di b, res.params = [("qi", qi), ("Di", Di), ("b", b)] ∧
            g = fun t => hyperbolic_decline O t qi Di b)) ∧
      res.rate_fitted = time_actual.map g ∧
      res.rate_forecast = res.time_forecast.map g := by
  unfold fit_model_and_generate_forecast at h
  by_cases he : pyLower model_type = "exponential"
  · rw [if_pos he] at h
    split at h
    · exact absurd h (by simp)
    · rename_i qi Di hfit
      dsimp only at h
      split at h
      · exact absurd h (by simp)
      · rename_i rmse heq
        injection h with h2
        subst h2
        dsimp only
        refine ⟨arange_add_int _ forecast_duration, ?_, ?_⟩
        · rw [arange_add_int _ forecast_duration, List.length_map,
            List.length_range]
        · exact ⟨fun t => exponential_decline O t qi Di,
            Or.inl ⟨he, qi, Di, rfl, rfl⟩, rfl, rfl⟩
  · rw [if_neg he] at h
    by_cases hh : pyLower model_type = "hyperbolic"
    · rw [if_pos hh] at h
      split at h
      · exact absurd h (by simp)
      · rename_i qi Di b hfit
        dsimp only at h
        split at h
        · exact absurd h (by simp)
        · rename_i rmse heq
          injection h with h2
          subst h2
          dsimp only
          refine ⟨arange_add_int _ forecast_duration, ?_, ?_⟩
          · rw [arange_add_int _ forecast_duration, List.length_map,
              List.length_range]
          · exact ⟨fun t => hyperbolic_decline O t qi Di b,
              Or.inr ⟨hh, qi, Di, b, rfl, rfl⟩, rfl, rfl⟩
    · rw [if_neg hh] at h
      exact absurd h (by simp)

/-- Trivial oracle assignment used by the C5 witness: constant numeric
externals and always-converging optimizers. -/
def O0 : DCAOracles :=
  ⟨fun _ => 1, fun _ _ => 1, fun _ => 0,
    fun _ _ => .ok (1, 1), fun _ _ => .ok (1, 1, 1)⟩

/-- The concrete engine run of the C5 witness. -/
def fitW : Except EngineError FitForecastResult :=
  fit_model_and_generate_forecast O0 [0, 1] [3, 2] "exponential" 2

/-- The successful result of the C5 witness run. -/
def resW : FitForecastResult :=
  match fitW with
  | .ok r => r
  | .error _ => ⟨[], [], [], [], 0⟩

/-- Witness for C5 at a concrete exponential run with two actual points
and a two-day forecast. -/
theorem fit_forecast_structure_witness :
    resW.time_forecast
        = (List.range (Int.toNat 2)).map
            (fun (i : ℕ) => ([0, 1] : List ℚ).getLast?.getD 0 + 1 + (i : ℚ)) ∧
    resW.time_forecast.length = Int.toNat 2 := by
  have h : fit_model_and_generate_forecast O0 [0, 1] [3, 2] "exponential" 2
      = .ok resW := rfl
  exact ⟨(fit_forecast_structure O0 [0, 1] [3, 2] "exponential" 2
      (by decide) resW h).1,
    (fit_forecast_structure O0 [0, 1] [3, 2] "exponential" 2
      (by decide) resW h).2.1⟩

/-- The names defined at module level by `src/core/exceptions.py`. -/
def coreExceptionsDefinedNames : List String :=
  ["AppException", "NotFoundException", "BadRequestException",
    "ConfigurationError", "DatabaseError"]

/-- The names `decline_curve_analysis_use_case.py` line 10 imports from
`src.core.exceptions` (`from src.core.exceptions import NotFoundError,
ValueError`). -/
def dcaUseCaseExceptionImports : List String :=
  ["NotFoundError", "ValueError"]

/-- C1 (code bug): the error classes through which the use case is meant
to report its not-found and validation failures do not exist — the names
it imports from `src.core.exceptions` are not among the names that module
defines (it defines `NotFoundException`, not `NotFoundError`, and no
`ValueError`), so importing the use-case module raises `ImportError`
before any analysis can run, and no `NotFoundError`/validation error can
ever be raised. -/
theorem dca_use_case_exception_import_mismatch :
    "NotFoundError" ∉ coreExceptionsDefinedNames ∧
    "ValueError" ∉ coreExceptionsDefinedNames ∧
    "NotFoundError" ∈ dcaUseCaseExceptionImports ∧
    "ValueError" ∈ dcaUseCaseExceptionImports := by
  refine ⟨by decide, by decide, by decide, by decide⟩
